import Mathlib

/-!
Shallow embedding of the b3j0f.aop weaving engine
(src/b3j0f/aop/advice.py and src/b3j0f/aop/joinpoint.py).

Conventions of the embedding:
* a joinpoint call takes a single integer argument and returns an integer
  (the `args`/`kwargs` of a call collapse to one `Int`);
* observable side effects of advice handlers and terminal-callee invocations
  are recorded in a ghost event trace;
* advice handler bodies are modelled by a small step language (`Step`): a
  handler may record an event, transform its accumulator, or call `proceed`
  (that is, the bound `AdvicesExecutor.execute` method) and combine the
  returned value into its accumulator, any number of times;
* `AdvicesExecutor.execute` is given fuel bounding the number of nested
  `execute` invocations, since Python advice may recurse through `proceed`
  without bound;
* only the plain-Python-function branch of joinpoint.py is modelled (the
  builtin/module-reference branch of `_apply_interception` and
  `_unapply_interception` is out of scope for the claims below).
-/

/-- Observable events of joinpoint calls: an advice handler body running
(identified by a tag) or the terminal callee being invoked with its
argument. -/
inductive Ev where
  | handler (tag : Nat)
  | callee (arg : Int)
deriving DecidableEq

/-- One step of an advice handler body: record an event, transform the
accumulator, or call `proceed` and fold its return value into the
accumulator. -/
inductive Step where
  | emit (tag : Nat)
  | mapAcc (f : Int → Int)
  | proceedStep (combine : Int → Int → Int)

/-- `Advice` object (advice.py lines 689-736): a handler implementation
(`_impl`) with a uid (`_uid`) and an enable flag (`_enable`). -/
structure Advice where
  uid : Nat
  enable : Bool
  impl : List Step

/-- An element of a joinpoint advice list: either a plain callable advice
(identified, like a Python function object, by an identity token `fid`) or an
`Advice` instance. -/
inductive Entry where
  | raw (fid : Nat) (impl : List Step)
  | adv (a : Advice)

/-- State of an `AdvicesExecutor` (advice.py lines 57-219): the cached advice
tuple (`self._advices`), the advice iterator (`self._advices_iterator`, with
`none` for the Python `None` and `some l` for an iterator with remaining
elements `l`), the captured call argument (`self.args`/`self.kwargs`) and the
ghost event trace. -/
structure ExecSt where
  cache : List Entry
  iter : Option (List Entry)
  args : Int
  trace : List Ev

/-- Initialization part of `AdvicesExecutor.execute` (advice.py lines
176-198): when the iterator is `None`, refetch the advice tuple of the
intercepted joinpoint (`get_advices(self.callee)`, i.e. its `_advices`
attribute `reg`) if the cached one is empty, then start a fresh iterator over
the cached advices. -/
def initIter (reg : List Entry) (st : ExecSt) : ExecSt :=
  match st.iter with
  | some _ => st
  | none =>
    let cache := if st.cache.isEmpty then reg else st.cache
    { st with cache := cache, iter := some cache }

/-- Run an advice handler body. `proceed` is the bound
`AdvicesExecutor.execute` method handed to the handler through the executor;
the handler may call it any number of times, mirroring arbitrary Python
handler code. -/
def runProg (proceed : ExecSt → Option (Int × ExecSt)) :
    List Step → Int → ExecSt → Option (Int × ExecSt)
  | [], acc, st => some (acc, st)
  | Step.emit tag :: rest, acc, st =>
    runProg proceed rest acc { st with trace := st.trace ++ [Ev.handler tag] }
  | Step.mapAcc f :: rest, acc, st => runProg proceed rest (f acc) st
  | Step.proceedStep c :: rest, acc, st =>
    match proceed st with
    | none => none
    | some (r, st') => runProg proceed rest (c acc r) st'

/-- `Advice.apply` (advice.py lines 724-736): run the wrapped handler when
the advice is enabled, otherwise call `advicesexecutor.execute()` directly. -/
def Advice.apply (proceed : ExecSt → Option (Int × ExecSt)) (a : Advice)
    (st : ExecSt) : Option (Int × ExecSt) :=
  if a.enable then runProg proceed a.impl 0 st else proceed st

/-- Invoke one advice list element on the executor (`advice(self)`, advice.py
line 212): a plain callable runs its body directly, an `Advice` instance goes
through `Advice.apply` (its `__call__`, advice.py lines 780-782). -/
def runEntry (proceed : ExecSt → Option (Int × ExecSt)) :
    Entry → ExecSt → Option (Int × ExecSt)
  | Entry.raw _ p, st => runProg proceed p 0 st
  | Entry.adv a, st => Advice.apply proceed a st

/-- `AdvicesExecutor.execute` (advice.py lines 169-212), with `reg` the
`_advices` attribute of the intercepted joinpoint and `body` the original
function (`self._intercepted`).  When the iterator is `None` it is
(re)initialized; then the next advice is consumed and invoked; on
`StopIteration` the iterator is reset to `None` and the intercepted original
is called with the captured arguments. -/
def executeStep (reg : List Entry) (body : Int → Int) :
    Nat → ExecSt → Option (Int × ExecSt)
  | 0 => fun _ => none
  | Nat.succ fuel => fun st =>
    let st1 := initIter reg st
    match st1.iter with
    | some [] =>
      some (body st1.args,
        { st1 with iter := none, trace := st1.trace ++ [Ev.callee st1.args] })
    | some (e :: rest) =>
      runEntry (executeStep reg body fuel) e { st1 with iter := some rest }
    | none => none

example :
    (executeStep [] (fun x => x + 1) 3
      { cache := [], iter := none, args := 4, trace := [] }).map Prod.fst
    = some 5 := by decide

/-- Error kinds raised by the modelled code paths: `AdviceError` (advice.py
lines 49-54) and the Python `AttributeError` that `delattr`/`getattr` raise
on a missing attribute. -/
inductive AErr where
  | adviceError
  | attributeError
deriving DecidableEq

/-- State of one Python function joinpoint (the plain-function branch of
joinpoint.py): `body` is the original code object's behaviour; `wovenCode`
tells whether the generated interception code is currently installed in the
function's `__code__` (the code swap of joinpoint.py lines 201-208);
`hasIntercepted` models the presence of the `_intercepted` attribute
(joinpoint.py lines 213 and 260); `advices` models the `_advices` attribute,
`none` when the attribute is absent; `exec` is the `AdvicesExecutor` attached
when interception was applied; `bindCount` is a ghost counter of how many
times interception was applied to this joinpoint. -/
structure JpState where
  body : Int → Int
  wovenCode : Bool
  hasIntercepted : Bool
  advices : Option (List Entry)
  exec : Option ExecSt
  bindCount : Nat

/-- `is_intercepted` (joinpoint.py lines 263-282): the joinpoint function
carries the `_intercepted` attribute.  (`get_function` of a plain function is
the function itself.) -/
def is_intercepted (jp : JpState) : Bool := jp.hasIntercepted

/-- A freshly constructed `AdvicesExecutor()` (advice.py lines 101-138 with
all parameters `None`): empty advice cache, iterator `None`, no captured
arguments yet. -/
def freshExec : ExecSt := { cache := [], iter := none, args := 0, trace := [] }

/-- A plain, never-woven Python function with behaviour `body`. -/
def freshJp (body : Int → Int) : JpState :=
  { body := body, wovenCode := false, hasIntercepted := false, advices := none,
    exec := none, bindCount := 0 }

/-- `AdvicesExecutor.apply_pointcut` together with `_apply_interception`
(advice.py lines 221-385 and joinpoint.py lines 162-222, plain-function
branch): a generated interception function swaps code objects with the
joinpoint, the `_intercepted` attribute is set on the joinpoint function, and
the executor driving the interception is attached to it. -/
def applyInterception (jp : JpState) : JpState :=
  { jp with wovenCode := true, hasIntercepted := true, exec := some freshExec,
            bindCount := jp.bindCount + 1 }

/-- `_unapply_interception` (joinpoint.py lines 225-260, plain-function
branch): restore the original code object on the joinpoint function and
delete the `_intercepted` attribute; the initial
`getattr(joinpoint_function, _INTERCEPTED)` raises when the joinpoint is not
intercepted. -/
def unapplyInterception (jp : JpState) : Except AErr JpState :=
  if jp.hasIntercepted then
    Except.ok { jp with wovenCode := false, hasIntercepted := false }
  else Except.error AErr.attributeError

/-- `_add_advices` (advice.py lines 388-402): read the `_advices` attribute,
defaulting to an empty list, append the new advices in the given order, store
the list back. -/
def addAdvices (jp : JpState) (advices : List Entry) : JpState :=
  { jp with advices := some (jp.advices.getD [] ++ advices) }

/-- Python equality between advice list elements: plain callables compare by
object identity, `Advice` instances by uid (`Advice.__eq__`, advice.py lines
793-800), and an `Advice` never equals a plain callable. -/
def entryBeq : Entry → Entry → Bool
  | Entry.raw i _, Entry.raw j _ => i == j
  | Entry.adv a, Entry.adv b => a.uid == b.uid
  | _, _ => false

/-- The Python membership test `advice in advices` used by
`_remove_advices`. -/
def entryMem (e : Entry) (l : List Entry) : Bool := l.any (entryBeq e)

/-- `_remove_advices` (advice.py lines 405-425): keep only the stored advices
that are not in the removal collection (all are dropped when the collection
is `None`); a non-empty remainder is stored back, otherwise the `_advices`
attribute is deleted (`delattr` raises `AttributeError` when it is absent)
and the interception is unapplied. -/
def removeAdvices (jp : JpState) (advices : Option (List Entry)) :
    Except AErr JpState :=
  let cur := jp.advices.getD []
  let remaining :=
    match advices with
    | some rm => cur.filter (fun a => !(entryMem a rm))
    | none => []
  if remaining.isEmpty then
    match jp.advices with
    | none => Except.error AErr.attributeError
    | some _ => unapplyInterception { jp with advices := none }
  else Except.ok { jp with advices := some remaining }

/-- Invoke the joinpoint function on argument `x`.  While the interception
code is installed, the generated code stores the call argument on the
attached executor and returns `proceed()` (advice.py lines 288-306), with the
terminal callee being the original code (`self._intercepted`); otherwise the
original body runs directly. -/
def callFunc (fuel : Nat) (jp : JpState) (x : Int) : Option (Int × JpState) :=
  if jp.wovenCode then
    match jp.exec with
    | some es =>
      match executeStep (jp.advices.getD []) jp.body fuel { es with args := x } with
      | some (r, es') => some (r, { jp with exec := some es' })
      | none => none
    | none => none
  else some (jp.body x, jp)

/-- `AdvicesExecutor.intercepted` setter (advice.py lines 131 and 148-156),
reached from `AdvicesExecutor.__init__`: the value becomes the callee, and
when it is not `None` and not intercepted, `apply_pointcut` is applied to it
as a side effect. -/
def interceptedSetter (jp : JpState) : JpState :=
  if is_intercepted jp then jp else applyInterception jp

/-- Weaving targets: a Python routine (with its joinpoint state), a class or
namespace container enumerating its members, or a non-callable member.
Routines and non-callable values expose no recursable members in this model
(see `weaveRec`). -/
inductive Target where
  | routine (name : String) (jp : JpState)
  | container (name : String) (members : List Target)
  | value (name : String)

/-- The `__name__` of a target. -/
def Target.tname : Target → String
  | Target.routine n _ => n
  | Target.container n _ => n
  | Target.value n => n

/-- Python `callable`: routines and classes/namespaces are callable,
plain values are not. -/
def callableT : Target → Bool
  | Target.routine _ _ => true
  | Target.container _ _ => true
  | Target.value _ => false

/-- `_publicmembers` (advice.py lines 464-467): callable and name not
starting with the private marker. -/
def publicmembers (t : Target) : Bool :=
  callableT t && !((Target.tname t).startsWith ("_"))

/-- The test `pointcut is None or pointcut(joinpoint)` (advice.py lines 563
and 656); a name-matcher or predicate pointcut examines the joinpoint
name. -/
def pcPass (pc : Option (String → Bool)) (n : String) : Bool :=
  match pc with
  | none => true
  | some p => p n

mutual
/-- `_weave` (advice.py lines 554-585): on a routine passing the pointcut,
apply the interception if the joinpoint is not yet intercepted and append the
advices to it; otherwise, while `depth > 0`, recurse with `depth - 1` into
the members selected by the depth predicate.  The second component collects
the intercepted joinpoint names (the `intercepted` result list). -/
def weaveRec (advices : List Entry) (pc : Option (String → Bool))
    (pred : Target → Bool) (depth : Int) :
    Target → Target × List String
  | Target.routine n jp =>
    if pcPass pc n then
      let jp1 := if is_intercepted jp then jp else applyInterception jp
      (Target.routine n (addAdvices jp1 advices), [n])
    else (Target.routine n jp, [])
  | Target.value n => (Target.value n, [])
  | Target.container n ms =>
    if depth > 0 then
      let r := weaveMembers advices pc pred (depth - 1) ms
      (Target.container n r.1, r.2)
    else (Target.container n ms, [])
termination_by t => sizeOf t

/-- The member loop of `_weave` (advice.py lines 579-585): members not
selected by the depth predicate (`getmembers(joinpoint, depth_predicate)`)
are left untouched. -/
def weaveMembers (advices : List Entry) (pc : Option (String → Bool))
    (pred : Target → Bool) (depth : Int) :
    List Target → List Target × List String
  | [] => ([], [])
  | m :: rest =>
    let hd := if pred m then weaveRec advices pc pred depth m else (m, [])
    let tl := weaveMembers advices pc pred depth rest
    (hd.1 :: tl.1, hd.2 ++ tl.2)
termination_by ms => sizeOf ms
end

mutual
/-- `_unweave` (advice.py lines 648-672): on a routine passing the pointcut,
remove the advices only when the joinpoint is currently intercepted;
otherwise, while `depth > 0`, recurse with `depth - 1` into the members
selected by the depth predicate. -/
def unweaveRec (advices : Option (List Entry)) (pc : Option (String → Bool))
    (pred : Target → Bool) (depth : Int) :
    Target → Except AErr Target
  | Target.routine n jp =>
    if pcPass pc n then
      if is_intercepted jp then
        match removeAdvices jp advices with
        | Except.ok jp' => Except.ok (Target.routine n jp')
        | Except.error e => Except.error e
      else Except.ok (Target.routine n jp)
    else Except.ok (Target.routine n jp)
  | Target.value n => Except.ok (Target.value n)
  | Target.container n ms =>
    if depth > 0 then
      match unweaveMembers advices pc pred (depth - 1) ms with
      | Except.ok ms' => Except.ok (Target.container n ms')
      | Except.error e => Except.error e
    else Except.ok (Target.container n ms)
termination_by t => sizeOf t

/-- The member loop of `_unweave` (advice.py lines 668-672). -/
def unweaveMembers (advices : Option (List Entry)) (pc : Option (String → Bool))
    (pred : Target → Bool) (depth : Int) :
    List Target → Except AErr (List Target)
  | [] => Except.ok []
  | m :: rest =>
    match (if pred m then unweaveRec advices pc pred depth m
           else Except.ok m) with
    | Except.error e => Except.error e
    | Except.ok m' =>
      match unweaveMembers advices pc pred depth rest with
      | Except.error e => Except.error e
      | Except.ok rest' => Except.ok (m' :: rest')
termination_by ms => sizeOf ms
end

/-- The `pointcut` argument accepted by `weave`/`unweave`: `None`, a regex
string (whose compiled matcher against the joinpoint name is abstracted as a
name predicate, `_namematcher`, advice.py lines 449-461), a callable
predicate, or a value of any other type. -/
inductive PointcutArg where
  | noneA
  | strA (matchName : String → Bool)
  | funcA (p : String → Bool)
  | otherA

/-- The pointcut initialization shared by `weave` and `unweave` (advice.py
lines 513-529 and 625-641): `None` and callables pass through, a string is
wrapped by `_namematcher`, anything else raises `AdviceError`. -/
def normalizePointcut : PointcutArg → Except AErr (Option (String → Bool))
  | PointcutArg.noneA => Except.ok none
  | PointcutArg.funcA p => Except.ok (some p)
  | PointcutArg.strA m => Except.ok (some m)
  | PointcutArg.otherA => Except.error AErr.adviceError

/-- The one-shot `Timer(ttl, unweave, kwargs)` scheduled by `weave` (advice.py
lines 538-549): it captures the normalized advices and pointcut together with
the depth and public flag of the weave call (the target itself is captured by
reference, so firing acts on the target's current state), and it can be
cancelled. -/
structure TimerModel where
  ttl : Nat
  advices : List Entry
  pointcut : Option (String → Bool)
  depth : Int
  public : Bool
  cancelled : Bool

/-- `timer.cancel()`. -/
def cancelTimer (tm : TimerModel) : TimerModel := { tm with cancelled := true }

/-- Re-embed a normalized pointcut as a `weave`/`unweave` argument: `None`
stays `None` and a matcher function is passed as a callable. -/
def reinject : Option (String → Bool) → PointcutArg
  | none => PointcutArg.noneA
  | some p => PointcutArg.funcA p

/-- `weave` (advice.py lines 470-551): normalize the advices and raise
`AdviceError` on an empty collection before any traversal; normalize the
pointcut; run the `_weave` traversal with the depth predicate selected by
`public`; when a ttl is supplied, schedule the unweave timer with the
captured arguments and return it alongside the intercepted list. -/
def weave (t : Target) (advices : List Entry) (pc : PointcutArg) (depth : Int)
    (pub : Bool) (ttl : Option Nat) :
    Except AErr (Target × List String × Option TimerModel) :=
  if advices.isEmpty then Except.error AErr.adviceError
  else
    match normalizePointcut pc with
    | Except.error e => Except.error e
    | Except.ok pcn =>
      let r := weaveRec advices pcn (if pub then publicmembers else callableT)
        depth t
      let timer := ttl.map (fun d =>
        { ttl := d, advices := advices, pointcut := pcn, depth := depth,
          public := pub, cancelled := false })
      Except.ok (r.1, r.2, timer)

/-- `unweave` (advice.py lines 588-645): normalize the pointcut and run the
`_unweave` traversal with the depth predicate selected by `public`. -/
def unweave (t : Target) (advices : Option (List Entry)) (pc : PointcutArg)
    (depth : Int) (pub : Bool) : Except AErr Target :=
  match normalizePointcut pc with
  | Except.error e => Except.error e
  | Except.ok pcn => unweaveRec advices pcn
      (if pub then publicmembers else callableT) depth t

/-- Firing of the scheduled timer (advice.py lines 546-547): unless already
cancelled, invoke `unweave` on the (by-reference) target with the captured
advices, pointcut, depth and public flag. -/
def fireTimer (tm : TimerModel) (t : Target) : Except AErr Target :=
  if tm.cancelled then Except.ok t
  else unweave t (some tm.advices) (reinject tm.pointcut) tm.depth tm.public

/-- An instrumented wrapping advice, the shape of the spec's observer advices
(`inc`, the counting `advicesexecutor` of the tests): record the tag `t`,
call `proceed()` exactly once and return its result. -/
def simpleAdv (t : Nat) : Entry :=
  Entry.raw t [Step.emit t, Step.proceedStep (fun _ r => r)]

/-- An `Advice` instance whose `_enable` flag is false, wrapping the handler
body `p`. -/
def disabledAdv (u : Nat) (p : List Step) : Entry :=
  Entry.adv { uid := u, enable := false, impl := p }

/-- A slot of an instrumented advice chain: an enabled wrapping advice with
tag `t`, or a disabled `Advice` with an arbitrary handler body. -/
inductive Slot where
  | enabledS (t : Nat)
  | disabledS (u : Nat) (p : List Step)

/-- The advice list element of a slot. -/
def mkSlot : Slot → Entry
  | Slot.enabledS t => simpleAdv t
  | Slot.disabledS u p => disabledAdv u p

/-- The handler events one slot contributes to a call trace: a disabled
advice contributes none. -/
def slotEvs : Slot → List Ev
  | Slot.enabledS t => [Ev.handler t]
  | Slot.disabledS _ _ => []

/-- The handler events a chain of slots contributes to a call trace. -/
def slotsEvs : List Slot → List Ev
  | [] => []
  | s :: rest => slotEvs s ++ slotsEvs rest

/-- The advices `_remove_advices` keeps (advice.py lines 414-419): the stored
ones not in the removal collection, or none at all when the collection is
`None`. -/
def survivors (l : List Entry) : Option (List Entry) → List Entry
  | some rm => l.filter (fun a => !(entryMem a rm))
  | none => []

/-- Original behaviour of the counterexample joinpoint: the identity
function. -/
def cexBody : Int → Int := fun x => x

/-- Advice list of the counterexample joinpoint: a single wrapping advice. -/
def cexReg : List Entry := [simpleAdv 7]

/-- Executor state at the start of a first call with argument 5. -/
def cexStart : ExecSt := { cache := [], iter := none, args := 5, trace := [] }

/-- Executor state after a completed first call of the counterexample
joinpoint: the chain was fully drained (the iterator was reset to `None`
after passing every advice) and the handler and the terminal callee ran
once. -/
def cexExhausted : ExecSt :=
  { cache := cexReg, iter := none, args := 5,
    trace := [Ev.handler 7, Ev.callee 5] }

/-- A concrete woven identity joinpoint carrying one wrapping advice, as
produced by `weave` on a fresh function. -/
def wovenIdJp : JpState :=
  ⟨fun x => x, true, true, some [simpleAdv 1], some freshExec, 1⟩

/-- An instrumented advice chain with one disabled `Advice` between two runs
of enabled wrapping advices. -/
def mixedChain (pres posts : List Nat) (u : Nat) (p : List Step) :
    List Slot :=
  pres.map Slot.enabledS ++ Slot.disabledS u p :: posts.map Slot.enabledS

theorem initIter_idem (reg : List Entry) (st : ExecSt) :
    initIter reg (initIter reg st) = initIter reg st := by
  unfold initIter
  cases h : st.iter <;> simp [h]

theorem executeStep_initIter (reg : List Entry) (body : Int → Int)
    (fuel : Nat) (st : ExecSt) :
    executeStep reg body fuel st
      = executeStep reg body fuel (initIter reg st) := by
  cases fuel with
  | zero => rfl
  | succ n => simp only [executeStep, initIter_idem]

theorem slotsEvs_append (a b : List Slot) :
    slotsEvs (a ++ b) = slotsEvs a ++ slotsEvs b := by
  induction a with
  | nil => simp [slotsEvs]
  | cons s rest ih => simp [slotsEvs, ih]

theorem slotsEvs_map_enabled (l : List Nat) :
    slotsEvs (l.map Slot.enabledS) = l.map Ev.handler := by
  induction l with
  | nil => simp [slotsEvs]
  | cons t rest ih => simp [slotsEvs, slotEvs, ih]

theorem run_slots (reg : List Entry) (body : Int → Int) :
    ∀ (ss : List Slot) (fuel : Nat) (st : ExecSt),
      st.iter = some (ss.map mkSlot) → ss.length < fuel →
      executeStep reg body fuel st =
        some (body st.args,
          { st with iter := none,
                    trace := st.trace ++ (slotsEvs ss ++ [Ev.callee st.args]) }) := by
  intro ss
  induction ss with
  | nil =>
    intro fuel st hiter hfuel
    cases fuel with
    | zero => exact (Nat.not_lt_zero _ hfuel).elim
    | succ n =>
      simp [executeStep, initIter, hiter, slotsEvs]
  | cons s rest ih =>
    intro fuel st hiter hfuel
    cases fuel with
    | zero => exact (Nat.not_lt_zero _ hfuel).elim
    | succ n =>
      have hr : rest.length < n := by
        simpa using Nat.lt_of_succ_lt_succ hfuel
      cases s with
      | enabledS t =>
        have h3 := ih n
          ⟨st.cache, some (rest.map mkSlot), st.args, st.trace ++ [Ev.handler t]⟩
          rfl hr
        simp only [] at h3
        simp [executeStep, initIter, hiter, mkSlot, simpleAdv, runEntry,
          runProg, h3, slotsEvs, slotEvs, List.append_assoc]
      | disabledS u p =>
        have h3 := ih n
          ⟨st.cache, some (rest.map mkSlot), st.args, st.trace⟩ rfl hr
        simp only [] at h3
        simp [executeStep, initIter, hiter, mkSlot, disabledAdv, runEntry,
          Advice.apply, h3, slotsEvs, slotEvs]

/-- C7: for every target, calling `weave` with an advice collection that
resolves to an empty list raises `AdviceError` immediately, before any
traversal or binding occurs, so no joinpoint is partially woven (the
emptiness check of advice.py lines 508-511 precedes pointcut initialization
and the `_weave` traversal). -/
theorem weave_empty_advices_is_error (t : Target) (pc : PointcutArg)
    (depth : Int) (pub : Bool) (ttl : Option Nat) :
    weave t [] pc depth pub ttl = Except.error AErr.adviceError := rfl

/-- C10: constructing an `AdvicesExecutor` with a not-yet-intercepted
joinpoint (or assigning one to its `intercepted` property) applies the
interception pointcut to it as a side effect, leaving it bound even though no
advice was registered and `weave` was never called. -/
theorem advicesexecutor_init_applies_pointcut (jp : JpState)
    (h : is_intercepted jp = false) :
    is_intercepted (interceptedSetter jp) = true ∧
    (interceptedSetter jp).wovenCode = true ∧
    (interceptedSetter jp).advices = jp.advices ∧
    (interceptedSetter jp).bindCount = jp.bindCount + 1 := by
  have h' : jp.hasIntercepted = false := h
  simp [interceptedSetter, is_intercepted, applyInterception, h']

theorem advicesexecutor_init_applies_pointcut_witness :
    is_intercepted (freshJp (fun x => x)) = false ∧
    (is_intercepted (interceptedSetter (freshJp (fun x => x))) = true ∧
     (interceptedSetter (freshJp (fun x => x))).wovenCode = true ∧
     (interceptedSetter (freshJp (fun x => x))).advices
        = (freshJp (fun x => x)).advices ∧
     (interceptedSetter (freshJp (fun x => x))).bindCount
        = (freshJp (fun x => x)).bindCount + 1) :=
  ⟨rfl, advicesexecutor_init_applies_pointcut (freshJp (fun x => x)) rfl⟩

/-- C1: for every function joinpoint and non-empty advice list, `unweave`
after `weave` restores the joinpoint's externally observable call behaviour:
for all arguments, calling it afterwards returns the same result as the
original function, and it is no longer intercepted. -/
theorem weave_unweave_restores (n : String) (body : Int → Int)
    (advs : List Entry) (h : advs ≠ []) :
    ∃ t1 names tm jp',
      weave (Target.routine n (freshJp body)) advs PointcutArg.noneA 1 false
          none
        = Except.ok (t1, names, tm) ∧
      unweave t1 none PointcutArg.noneA 1 false
        = Except.ok (Target.routine n jp') ∧
      is_intercepted jp' = false ∧
      jp'.wovenCode = false ∧
      (∀ fuel x, callFunc fuel jp' x = some (body x, jp')) ∧
      (∀ fuel fuel2 x, (callFunc fuel jp' x).map Prod.fst
          = (callFunc fuel2 (freshJp body) x).map Prod.fst) := by
  obtain ⟨a, as, rfl⟩ := List.exists_cons_of_ne_nil h
  refine ⟨Target.routine n
      ⟨body, true, true, some (a :: as), some freshExec, 1⟩,
    [n], none,
    ⟨body, false, false, none, some freshExec, 1⟩,
    ?_, ?_, rfl, rfl, ?_, ?_⟩
  · simp [weave, normalizePointcut, weaveRec, pcPass, is_intercepted, freshJp,
      applyInterception, addAdvices, freshExec]
  · simp [unweave, normalizePointcut, unweaveRec, pcPass, is_intercepted,
      removeAdvices, unapplyInterception]
  · intro fuel x; simp [callFunc]
  · intro fuel fuel2 x; simp [callFunc, freshJp]

theorem weave_unweave_restores_witness :
    ([simpleAdv 1] : List Entry) ≠ [] ∧
    (∃ t1 names tm jp',
      weave (Target.routine ("f") (freshJp (fun x => x))) [simpleAdv 1]
          PointcutArg.noneA 1 false none
        = Except.ok (t1, names, tm) ∧
      unweave t1 none PointcutArg.noneA 1 false
        = Except.ok (Target.routine ("f") jp') ∧
      is_intercepted jp' = false ∧
      jp'.wovenCode = false ∧
      (∀ fuel x, callFunc fuel jp' x = some (x, jp')) ∧
      (∀ fuel fuel2 x, (callFunc fuel jp' x).map Prod.fst
          = (callFunc fuel2 (freshJp (fun x => x)) x).map Prod.fst)) :=
  ⟨by simp,
   weave_unweave_restores ("f") (fun x => x) [simpleAdv 1] (by simp)⟩

/-- C4: for every directly invocable target passing the pointcut test,
`weave` applies the interception exactly once per distinct joinpoint: weaving
a second advice list onto an already-intercepted joinpoint does not apply the
interception again, it only appends the advices. -/
theorem weave_binds_exactly_once (n : String) (body : Int → Int)
    (advs1 advs2 : List Entry) (h1 : advs1 ≠ []) (h2 : advs2 ≠ []) :
    ∃ jp1 jp2,
      weave (Target.routine n (freshJp body)) advs1 PointcutArg.noneA 1 false
          none
        = Except.ok (Target.routine n jp1, [n], none) ∧
      jp1.bindCount = 1 ∧ is_intercepted jp1 = true ∧
      jp1.advices = some advs1 ∧
      weave (Target.routine n jp1) advs2 PointcutArg.noneA 1 false none
        = Except.ok (Target.routine n jp2, [n], none) ∧
      jp2.bindCount = 1 ∧ jp2.advices = some (advs1 ++ advs2) := by
  obtain ⟨a, as, rfl⟩ := List.exists_cons_of_ne_nil h1
  obtain ⟨b, bs, rfl⟩ := List.exists_cons_of_ne_nil h2
  refine ⟨⟨body, true, true, some (a :: as), some freshExec, 1⟩,
    ⟨body, true, true, some (a :: as ++ b :: bs), some freshExec, 1⟩,
    ?_, rfl, rfl, rfl, ?_, rfl, rfl⟩
  · simp [weave, normalizePointcut, weaveRec, pcPass, is_intercepted, freshJp,
      applyInterception, addAdvices]
  · simp [weave, normalizePointcut, weaveRec, pcPass, is_intercepted,
      addAdvices]

theorem weave_binds_exactly_once_witness :
    ([simpleAdv 1] : List Entry) ≠ [] ∧ ([simpleAdv 2] : List Entry) ≠ [] ∧
    (∃ jp1 jp2,
      weave (Target.routine ("f") (freshJp (fun x => x))) [simpleAdv 1]
          PointcutArg.noneA 1 false none
        = Except.ok (Target.routine ("f") jp1, [("f")], none) ∧
      jp1.bindCount = 1 ∧ is_intercepted jp1 = true ∧
      jp1.advices = some [simpleAdv 1] ∧
      weave (Target.routine ("f") jp1) [simpleAdv 2] PointcutArg.noneA 1 false
          none
        = Except.ok (Target.routine ("f") jp2, [("f")], none) ∧
      jp2.bindCount = 1 ∧
      jp2.advices = some ([simpleAdv 1] ++ [simpleAdv 2])) :=
  ⟨by simp, by simp,
   weave_binds_exactly_once ("f") (fun x => x) [simpleAdv 1] [simpleAdv 2]
     (by simp) (by simp)⟩

/-- C5: for every bound joinpoint, whenever `unweave` makes its advice list
empty (removing the last matching advices, or all of them with
`advices=None`), the joinpoint is unbound via interception removal and its
`_advices` registry entry is discarded; a joinpoint never remains bound with
an empty advice list. -/
theorem unweave_empty_advices_unbinds (n : String) (jp : JpState)
    (l : List Entry) (advsOpt : Option (List Entry))
    (hI : jp.hasIntercepted = true) (hA : jp.advices = some l) :
    ∃ jp',
      unweave (Target.routine n jp) advsOpt PointcutArg.noneA 1 false
        = Except.ok (Target.routine n jp') ∧
      (survivors l advsOpt = [] →
        jp'.hasIntercepted = false ∧ jp'.advices = none ∧
        jp'.wovenCode = false) ∧
      (survivors l advsOpt ≠ [] →
        jp'.hasIntercepted = true ∧
        jp'.advices = some (survivors l advsOpt)) ∧
      (jp'.hasIntercepted = true → ∃ l2, jp'.advices = some l2 ∧ l2 ≠ []) := by
  obtain ⟨jb, jw, jh, ja, je, jbc⟩ := jp
  replace hI : jh = true := hI
  replace hA : ja = some l := hA
  subst hI
  subst hA
  have hun : unweave (Target.routine n ⟨jb, jw, true, some l, je, jbc⟩)
        advsOpt PointcutArg.noneA 1 false
      = (match removeAdvices ⟨jb, jw, true, some l, je, jbc⟩ advsOpt with
         | Except.ok jp2 => Except.ok (Target.routine n jp2)
         | Except.error e => Except.error e) := by
    simp [unweave, normalizePointcut, unweaveRec, pcPass, is_intercepted]
  by_cases hs : survivors l advsOpt = []
  · have hrm : removeAdvices ⟨jb, jw, true, some l, je, jbc⟩ advsOpt
        = Except.ok ⟨jb, false, false, none, je, jbc⟩ := by
      cases advsOpt with
      | none => simp [removeAdvices, unapplyInterception]
      | some rm2 =>
        have hf : l.filter (fun a => !(entryMem a rm2)) = [] := hs
        simp [removeAdvices, unapplyInterception, hf]
    refine ⟨⟨jb, false, false, none, je, jbc⟩, ?_, ?_, ?_, ?_⟩
    · rw [hun, hrm]
    · intro _; exact ⟨rfl, rfl, rfl⟩
    · intro hc; exact absurd hs hc
    · intro hc; simp at hc
  · have hrm : removeAdvices ⟨jb, jw, true, some l, je, jbc⟩ advsOpt
        = Except.ok ⟨jb, jw, true, some (survivors l advsOpt), je, jbc⟩ := by
      cases advsOpt with
      | none => exact absurd rfl hs
      | some rm2 =>
        have hf : (l.filter (fun a => !(entryMem a rm2))).isEmpty = false := by
          cases hF : l.filter (fun a => !(entryMem a rm2)) with
          | nil => exact absurd hF hs
          | cons y ys => rfl
        simp [removeAdvices, hf, survivors]
    refine ⟨⟨jb, jw, true, some (survivors l advsOpt), je, jbc⟩, ?_, ?_, ?_, ?_⟩
    · rw [hun, hrm]
    · intro hc; exact absurd hc hs
    · intro _; exact ⟨rfl, rfl⟩
    · intro _; exact ⟨survivors l advsOpt, rfl, hs⟩

theorem unweave_empty_advices_unbinds_witness :
    wovenIdJp.hasIntercepted = true ∧
    wovenIdJp.advices = some [simpleAdv 1] ∧
    (∃ jp',
      unweave (Target.routine ("f") wovenIdJp) none PointcutArg.noneA 1 false
        = Except.ok (Target.routine ("f") jp') ∧
      (survivors [simpleAdv 1] none = [] →
        jp'.hasIntercepted = false ∧ jp'.advices = none ∧
        jp'.wovenCode = false) ∧
      (survivors [simpleAdv 1] none ≠ [] →
        jp'.hasIntercepted = true ∧
        jp'.advices = some (survivors [simpleAdv 1] none)) ∧
      (jp'.hasIntercepted = true → ∃ l2, jp'.advices = some l2 ∧ l2 ≠ [])) :=
  ⟨rfl, rfl,
   unweave_empty_advices_unbinds ("f") wovenIdJp [simpleAdv 1] none rfl rfl⟩

/-- C8: `unweave` on a joinpoint that is not currently intercepted, or asked
to remove advices that are not present in the joinpoint's advice list,
completes as a silent no-op without raising and leaves the joinpoint's state
unchanged. -/
theorem unweave_missing_is_noop (n : String) (jp : JpState)
    (advsOpt : Option (List Entry)) (rm l : List Entry) (depth : Int)
    (pub : Bool) :
    (jp.hasIntercepted = false →
      unweave (Target.routine n jp) advsOpt PointcutArg.noneA depth pub
        = Except.ok (Target.routine n jp)) ∧
    (jp.hasIntercepted = true → jp.advices = some l → l ≠ [] →
      (∀ a ∈ l, entryMem a rm = false) →
      unweave (Target.routine n jp) (some rm) PointcutArg.noneA depth pub
        = Except.ok (Target.routine n jp)) := by
  constructor
  · intro h
    simp [unweave, normalizePointcut, unweaveRec, pcPass, is_intercepted, h]
  · intro hI hA hne hmem
    obtain ⟨x, xs, rfl⟩ := List.exists_cons_of_ne_nil hne
    have hfilter : (x :: xs).filter (fun a => !(entryMem a rm)) = x :: xs :=
      List.filter_eq_self.mpr (fun a ha => by simp [hmem a ha])
    obtain ⟨jb, jw, jh, ja, je, jbc⟩ := jp
    replace hI : jh = true := hI
    replace hA : ja = some (x :: xs) := hA
    subst hI
    subst hA
    simp [unweave, normalizePointcut, unweaveRec, pcPass, is_intercepted,
      removeAdvices, hfilter]

theorem unweave_missing_is_noop_witness :
    ((freshJp (fun x => x)).hasIntercepted = false ∧
     unweave (Target.routine ("f") (freshJp (fun x => x))) none
         PointcutArg.noneA 1 false
       = Except.ok (Target.routine ("f") (freshJp (fun x => x)))) ∧
    (wovenIdJp.hasIntercepted = true ∧
     wovenIdJp.advices = some [simpleAdv 1] ∧
     ([simpleAdv 1] : List Entry) ≠ [] ∧
     (∀ a ∈ ([simpleAdv 1] : List Entry), entryMem a [simpleAdv 2] = false) ∧
     unweave (Target.routine ("f") wovenIdJp) (some [simpleAdv 2])
         PointcutArg.noneA 1 false
       = Except.ok (Target.routine ("f") wovenIdJp)) := by
  have hmem : ∀ a ∈ ([simpleAdv 1] : List Entry),
      entryMem a [simpleAdv 2] = false := by
    intro a ha
    rw [List.mem_singleton] at ha
    subst ha
    rfl
  exact ⟨⟨rfl,
    (unweave_missing_is_noop ("f") (freshJp (fun x => x)) none [simpleAdv 2]
      [simpleAdv 1] 1 false).1 rfl⟩,
    rfl, rfl, by simp, hmem,
    (unweave_missing_is_noop ("f") wovenIdJp none [simpleAdv 2] [simpleAdv 1]
      1 false).2 rfl rfl (by simp) hmem⟩

/-- C2: after `weave(J, [a1, a2])` followed by `weave(J, [a3])`, the advices
are appended to the `_advices` registry in order after any advice already
present, and a call to the joinpoint executes the advice handlers in exactly
the order a1, a2, a3 before the original body runs. -/
theorem weave_weave_call_order (n : String) (body : Int → Int)
    (t1 t2 t3 : Nat) (x : Int) (fuel : Nat) (hf : 3 < fuel) :
    ∃ jp1 jp2 es,
      weave (Target.routine n (freshJp body)) [simpleAdv t1, simpleAdv t2]
          PointcutArg.noneA 1 false none
        = Except.ok (Target.routine n jp1, [n], none) ∧
      weave (Target.routine n jp1) [simpleAdv t3] PointcutArg.noneA 1 false
          none
        = Except.ok (Target.routine n jp2, [n], none) ∧
      jp2.advices = some [simpleAdv t1, simpleAdv t2, simpleAdv t3] ∧
      callFunc fuel jp2 x = some (body x, { jp2 with exec := some es }) ∧
      es.trace
        = [Ev.handler t1, Ev.handler t2, Ev.handler t3, Ev.callee x] := by
  have hcall : executeStep [simpleAdv t1, simpleAdv t2, simpleAdv t3] body
        fuel ⟨[], none, x, []⟩
      = some (body x,
          ⟨[simpleAdv t1, simpleAdv t2, simpleAdv t3], none, x,
           [Ev.handler t1, Ev.handler t2, Ev.handler t3, Ev.callee x]⟩) := by
    rw [executeStep_initIter]
    have hrun := run_slots [simpleAdv t1, simpleAdv t2, simpleAdv t3] body
      [Slot.enabledS t1, Slot.enabledS t2, Slot.enabledS t3] fuel
      ⟨[simpleAdv t1, simpleAdv t2, simpleAdv t3],
       some [simpleAdv t1, simpleAdv t2, simpleAdv t3], x, []⟩ rfl hf
    simpa [initIter, slotsEvs, slotEvs, mkSlot] using hrun
  refine ⟨⟨body, true, true, some [simpleAdv t1, simpleAdv t2],
      some freshExec, 1⟩,
    ⟨body, true, true, some [simpleAdv t1, simpleAdv t2, simpleAdv t3],
      some freshExec, 1⟩,
    ⟨[simpleAdv t1, simpleAdv t2, simpleAdv t3], none, x,
      [Ev.handler t1, Ev.handler t2, Ev.handler t3, Ev.callee x]⟩,
    ?_, ?_, rfl, ?_, rfl⟩
  · simp [weave, normalizePointcut, weaveRec, pcPass, is_intercepted, freshJp,
      applyInterception, addAdvices]
  · simp [weave, normalizePointcut, weaveRec, pcPass, is_intercepted,
      addAdvices]
  · simp [callFunc, freshExec, hcall]

theorem weave_weave_call_order_witness :
    3 < 4 ∧
    (∃ jp1 jp2 es,
      weave (Target.routine ("f") (freshJp (fun v => v)))
          [simpleAdv 1, simpleAdv 2] PointcutArg.noneA 1 false none
        = Except.ok (Target.routine ("f") jp1, [("f")], none) ∧
      weave (Target.routine ("f") jp1) [simpleAdv 3] PointcutArg.noneA 1 false
          none
        = Except.ok (Target.routine ("f") jp2, [("f")], none) ∧
      jp2.advices = some [simpleAdv 1, simpleAdv 2, simpleAdv 3] ∧
      callFunc 4 jp2 5 = some (5, { jp2 with exec := some es }) ∧
      es.trace
        = [Ev.handler 1, Ev.handler 2, Ev.handler 3, Ev.callee 5]) :=
  ⟨by decide,
   weave_weave_call_order ("f") (fun v => v) 1 2 3 5 4 (by decide)⟩

/-- C6: a call through a joinpoint whose chain contains an `Advice` with
`enable = false` skips that advice's handler (none of its events appear in
the trace) but still advances the chain on its behalf, so the subsequent
advices and the original body still execute; the disabled slot stays in the
registry. -/
theorem disabled_advice_skipped (n : String) (body : Int → Int)
    (pres posts : List Nat) (u : Nat) (p : List Step) (x : Int) (fuel : Nat)
    (hf : pres.length + posts.length + 1 < fuel) :
    ∃ jp1 es,
      weave (Target.routine n (freshJp body))
          ((mixedChain pres posts u p).map mkSlot) PointcutArg.noneA 1 false
          none
        = Except.ok (Target.routine n jp1, [n], none) ∧
      jp1.advices = some ((mixedChain pres posts u p).map mkSlot) ∧
      callFunc fuel jp1 x = some (body x, { jp1 with exec := some es }) ∧
      es.trace
        = (pres.map Ev.handler ++ posts.map Ev.handler) ++ [Ev.callee x] := by
  have hlen : (mixedChain pres posts u p).length < fuel := by
    simp only [mixedChain, List.length_append, List.length_cons,
      List.length_map]
    omega
  have hne : ((mixedChain pres posts u p).map mkSlot).isEmpty = false := by
    cases hA : pres.map Slot.enabledS with
    | nil => simp [mixedChain, hA]
    | cons a as => simp [mixedChain, hA]
  have hslots : slotsEvs (mixedChain pres posts u p)
      = pres.map Ev.handler ++ posts.map Ev.handler := by
    simp [mixedChain, slotsEvs_append, slotsEvs, slotEvs,
      slotsEvs_map_enabled]
  have hcall : executeStep ((mixedChain pres posts u p).map mkSlot) body fuel
        ⟨[], none, x, []⟩
      = some (body x,
          ⟨(mixedChain pres posts u p).map mkSlot, none, x,
           (pres.map Ev.handler ++ posts.map Ev.handler) ++ [Ev.callee x]⟩) := by
    rw [executeStep_initIter]
    have hrun := run_slots ((mixedChain pres posts u p).map mkSlot) body
      (mixedChain pres posts u p) fuel
      ⟨(mixedChain pres posts u p).map mkSlot,
       some ((mixedChain pres posts u p).map mkSlot), x, []⟩ rfl hlen
    simpa [initIter, hslots] using hrun
  refine ⟨⟨body, true, true, some ((mixedChain pres posts u p).map mkSlot),
      some freshExec, 1⟩,
    ⟨(mixedChain pres posts u p).map mkSlot, none, x,
      (pres.map Ev.handler ++ posts.map Ev.handler) ++ [Ev.callee x]⟩,
    ?_, rfl, ?_, rfl⟩
  · simp [weave, hne, normalizePointcut, weaveRec, pcPass, is_intercepted,
      freshJp, applyInterception, addAdvices]
  · simp [callFunc, freshExec, hcall]

theorem disabled_advice_skipped_witness :
    ([1] : List Nat).length + ([2] : List Nat).length + 1 < 4 ∧
    (∃ jp1 es,
      weave (Target.routine ("f") (freshJp (fun v => v)))
          ((mixedChain [1] [2] 9 [Step.emit 5]).map mkSlot) PointcutArg.noneA
          1 false none
        = Except.ok (Target.routine ("f") jp1, [("f")], none) ∧
      jp1.advices = some ((mixedChain [1] [2] 9 [Step.emit 5]).map mkSlot) ∧
      callFunc 4 jp1 3 = some (3, { jp1 with exec := some es }) ∧
      es.trace = (([1] : List Nat).map Ev.handler
          ++ ([2] : List Nat).map Ev.handler) ++ [Ev.callee 3]) :=
  ⟨by decide,
   disabled_advice_skipped ("f") (fun v => v) [1] [2] 9 [Step.emit 5] 3 4
     (by decide)⟩

/-- C3 counterexample: for the identity joinpoint woven with the single
wrapping advice `simpleAdv 7`, a first call with argument 5 drains the chain
(reaching the exhausted context `cexExhausted`); invoking `proceed()` (that
is, `execute`) again on that exhausted context re-runs the advice handler —
the trace grows by `[handler 7, callee 5]`, not by `[callee 5]` alone as the
claim states. -/
theorem proceed_after_exhaustion_cex :
    executeStep cexReg cexBody 5 cexStart = some (5, cexExhausted) ∧
    (executeStep cexReg cexBody 5 cexExhausted).map Prod.fst = some 5 ∧
    (executeStep cexReg cexBody 5 cexExhausted).map (fun pr => pr.2.trace)
      = some (cexExhausted.trace ++ [Ev.handler 7, Ev.callee 5]) ∧
    (executeStep cexReg cexBody 5 cexExhausted).map (fun pr => pr.2.trace)
      ≠ some (cexExhausted.trace ++ [Ev.callee 5]) :=
  ⟨rfl, rfl, rfl, by decide⟩

/-- C3 amended: for an execution context whose advice chain is already
exhausted (iterator `None`, advice cache non-empty), invoking `proceed()`
again re-initializes the iterator from the cached advice list and re-runs
every advice handler in registry order before re-invoking the terminal
callee with the captured arguments; it does not invoke the terminal callee
alone. -/
theorem proceed_after_exhaustion_restarts (reg : List Entry)
    (body : Int → Int) (ss : List Slot) (st : ExecSt) (fuel : Nat)
    (hiter : st.iter = none) (hcache : st.cache = ss.map mkSlot)
    (hne : ss ≠ []) (hfuel : ss.length < fuel) :
    executeStep reg body fuel st
      = some (body st.args,
          { st with iter := none,
                    trace := st.trace
                      ++ (slotsEvs ss ++ [Ev.callee st.args]) }) := by
  obtain ⟨sc, si, sa, str⟩ := st
  replace hiter : si = none := hiter
  replace hcache : sc = ss.map mkSlot := hcache
  subst hiter
  subst hcache
  rw [executeStep_initIter]
  have hm : (ss.map mkSlot).isEmpty = false := by
    cases ss with
    | nil => exact absurd rfl hne
    | cons a b => rfl
  have hinit : initIter reg ⟨ss.map mkSlot, none, sa, str⟩
      = ⟨ss.map mkSlot, some (ss.map mkSlot), sa, str⟩ := by
    simp [initIter, hm]
  rw [hinit]
  have hrun := run_slots reg body ss fuel
    ⟨ss.map mkSlot, some (ss.map mkSlot), sa, str⟩ rfl hfuel
  simpa using hrun

theorem proceed_after_exhaustion_restarts_witness :
    (⟨[simpleAdv 1], none, 2, []⟩ : ExecSt).iter = none ∧
    (⟨[simpleAdv 1], none, 2, []⟩ : ExecSt).cache
      = ([Slot.enabledS 1] : List Slot).map mkSlot ∧
    ([Slot.enabledS 1] : List Slot) ≠ [] ∧
    ([Slot.enabledS 1] : List Slot).length < 2 ∧
    executeStep [] (fun v => v) 2 ⟨[simpleAdv 1], none, 2, []⟩
      = some (2, ⟨[simpleAdv 1], none, 2,
          [] ++ (slotsEvs [Slot.enabledS 1] ++ [Ev.callee 2])⟩) := by
  refine ⟨rfl, rfl, by simp, by decide, ?_⟩
  exact proceed_after_exhaustion_restarts [] (fun v => v) [Slot.enabledS 1]
    ⟨[simpleAdv 1], none, 2, []⟩ 2 rfl rfl (by simp) (by decide)

/-- C9: for every weave call with a ttl, `weave` schedules a one-shot timer
capturing exactly the advices, pointcut, depth and public values of the call
(the target is captured by reference), returns the match list paired with
that cancellable handle, firing the timer invokes `unweave` with the captured
values, and cancelling before expiry makes firing a no-op. -/
theorem weave_ttl_captures (t : Target) (advs : List Entry) (h : advs ≠ [])
    (pc : PointcutArg) (pcn : Option (String → Bool))
    (hpc : normalizePointcut pc = Except.ok pcn) (depth : Int) (pub : Bool)
    (d : Nat) :
    weave t advs pc depth pub (some d)
      = Except.ok
          ((weaveRec advs pcn (if pub then publicmembers else callableT)
              depth t).1,
           (weaveRec advs pcn (if pub then publicmembers else callableT)
              depth t).2,
           some ⟨d, advs, pcn, depth, pub, false⟩) ∧
    (∀ tree, fireTimer ⟨d, advs, pcn, depth, pub, false⟩ tree
        = unweave tree (some advs) (reinject pcn) depth pub) ∧
    (∀ tree, fireTimer (cancelTimer ⟨d, advs, pcn, depth, pub, false⟩) tree
        = Except.ok tree) := by
  obtain ⟨a, as, rfl⟩ := List.exists_cons_of_ne_nil h
  refine ⟨?_, ?_, ?_⟩
  · simp [weave, hpc]
  · intro tree; rfl
  · intro tree; rfl

theorem weave_ttl_captures_witness :
    ([simpleAdv 1] : List Entry) ≠ [] ∧
    normalizePointcut PointcutArg.noneA = Except.ok none ∧
    weave (Target.value ("v")) [simpleAdv 1] PointcutArg.noneA 1 false
        (some 10)
      = Except.ok
          ((weaveRec [simpleAdv 1] none callableT 1 (Target.value ("v"))).1,
           (weaveRec [simpleAdv 1] none callableT 1 (Target.value ("v"))).2,
           some ⟨10, [simpleAdv 1], none, 1, false, false⟩) ∧
    fireTimer ⟨10, [simpleAdv 1], none, 1, false, false⟩ (Target.value ("w"))
      = unweave (Target.value ("w")) (some [simpleAdv 1]) (reinject none) 1
          false ∧
    fireTimer (cancelTimer ⟨10, [simpleAdv 1], none, 1, false, false⟩)
        (Target.value ("w"))
      = Except.ok (Target.value ("w")) := by
  have H := weave_ttl_captures (Target.value ("v")) [simpleAdv 1] (by simp)
    PointcutArg.noneA none rfl 1 false 10
  exact ⟨by simp, rfl, H.1, H.2.1 (Target.value ("w")),
    H.2.2 (Target.value ("w"))⟩
